import Mathlib

/-!
Shallow embedding of the KAI_schedule repository (files
src/kai_schedule/parser.py and src/kai_schedule/schedule_item.py) and
proofs about the claims of its specification.

Strings of the Python program are modelled as `List Char`.  Timestamps are
modelled by `DateTime` below: a proleptic-Gregorian day number (Python's
`date.toordinal`), a minute of day, a second, and the time-zone name the
`datetime` object carries.  Every timestamp the program builds carries the
single zone "Europe/Moscow", so comparison of timestamps is wall-clock
comparison; the model orders `DateTime` values lexicographically on
(day, minute, second), which coincides with Python's order for values
sharing one zone.
-/

/-! ## The Gregorian calendar and ISO week numbers

The program relies on Python's `datetime` library for `weekday()`,
`isocalendar()[1]`, day arithmetic and `DD.MM.YYYY` validation.  The
following definitions are the standard proleptic Gregorian calendar, the
ambient semantics of that library. -/

def isLeap (y : Nat) : Bool :=
  (y % 4 == 0 && y % 100 != 0) || y % 400 == 0

def daysInYear (y : Nat) : Nat :=
  if isLeap y then 366 else 365

/-- Days of year `y` strictly before the first day of month `m` (1-12). -/
def daysBeforeMonth (y m : Nat) : Nat :=
  let l : Nat := if isLeap y then 1 else 0
  match m with
  | 1 => 0
  | 2 => 31
  | 3 => 59 + l
  | 4 => 90 + l
  | 5 => 120 + l
  | 6 => 151 + l
  | 7 => 181 + l
  | 8 => 212 + l
  | 9 => 243 + l
  | 10 => 273 + l
  | 11 => 304 + l
  | _ => 334 + l

def daysInMonth (y m : Nat) : Nat :=
  if m = 2 then (if isLeap y then 29 else 28)
  else if m = 4 ∨ m = 6 ∨ m = 9 ∨ m = 11 then 30
  else 31

/-- Day of year, 1-based. -/
def dayOfYear (y m d : Nat) : Nat :=
  daysBeforeMonth y m + d

/-- Days strictly before January 1 of year `y` counted from the proleptic
Gregorian epoch (so `daysBefore 1 = 0`). -/
def daysBefore (y : Nat) : Nat :=
  365 * (y - 1) + (y - 1) / 4 + (y - 1) / 400 - (y - 1) / 100

/-- `date(y, m, d).toordinal()`: day 1 is 0001-01-01. -/
def rataDie (y m d : Nat) : Nat :=
  daysBefore y + dayOfYear y m d

/-- Python's `date.weekday()`: Monday = 0 .. Sunday = 6.
Day number 1 (0001-01-01) is a Monday. -/
def pyWeekday (rd : Nat) : Nat :=
  (rd + 6) % 7

/-- Recover `(year, day-of-year)` from a day number: repeatedly peel whole
years starting from year 1.  `fuel` bounds the recursion; it is always
called with `fuel = rd`, which suffices since every year has ≥ 365 days. -/
def yearOf : Nat → Nat → Nat → Nat × Nat
  | 0, y, n => (y, n)
  | fuel + 1, y, n =>
    if n ≤ daysInYear y then (y, n) else yearOf fuel (y + 1) (n - daysInYear y)

/-- ISO 8601 week number of a day, as returned by Python's
`date.isocalendar()[1]`: the week number of a date is determined by the
Thursday of its Monday-based week; if that Thursday is the `k`-th Thursday
of its year, the week number is `k`. -/
def isoWeekNum (rd : Nat) : Nat :=
  ((yearOf (rd + 3 - pyWeekday rd) 1 (rd + 3 - pyWeekday rd)).2 - 1) / 7 + 1

/-! ## Timestamps -/

structure DateTime where
  rd : Nat
  minute : Nat
  second : Nat
  tz : List Char
deriving DecidableEq, Repr

/-- Python `datetime` comparison for values sharing one time zone:
wall-clock lexicographic order. -/
def DateTime.ltb (a b : DateTime) : Bool :=
  a.rd < b.rd ||
    (a.rd == b.rd &&
      (a.minute < b.minute || (a.minute == b.minute && a.second < b.second)))

def DateTime.addMinutes (a : DateTime) (k : Nat) : DateTime :=
  { a with rd := a.rd + (a.minute + k) / 1440, minute := (a.minute + k) % 1440 }

def DateTime.addDays (a : DateTime) (k : Nat) : DateTime :=
  { a with rd := a.rd + k }

def moscow : List Char := "Europe/Moscow".data

/-! ## Python string primitives on `List Char` -/

/-- Python `str.strip()`. -/
def pyStrip (cs : List Char) : List Char :=
  ((cs.dropWhile Char.isWhitespace).reverse.dropWhile Char.isWhitespace).reverse

/-- Python `str.split()` with no separator: split on runs of whitespace,
producing no empty fragments.  `acc` carries the characters of the token
being read, in reverse. -/
def splitWsAux : List Char → List Char → List (List Char)
  | [], acc => if acc = [] then [] else [acc.reverse]
  | c :: cs, acc =>
    if c.isWhitespace then
      if acc = [] then splitWsAux cs [] else acc.reverse :: splitWsAux cs []
    else splitWsAux cs (c :: acc)

def splitWs (cs : List Char) : List (List Char) :=
  splitWsAux cs []

/-- Split a text into its lines at every newline character (the inverse
direction of joining with a newline). -/
def splitNl : List Char → List (List Char)
  | [] => [[]]
  | c :: cs =>
    if c = '\n' then [] :: splitNl cs
    else
      match splitNl cs with
      | t :: ts => (c :: t) :: ts
      | [] => [[c]]

/-- Python `sep.join(parts)`. -/
def joinWith (sep : List Char) : List (List Char) → List Char
  | [] => []
  | [x] => x
  | x :: xs => x ++ sep ++ joinWith sep xs

def digitVal (c : Char) : Nat := c.toNat - 48

/-- Read one or two leading decimal digits (greedy), returning the value
and the rest of the input. -/
def read2 : List Char → Option (Nat × List Char)
  | [] => none
  | c1 :: rest =>
    if c1.isDigit then
      match rest with
      | c2 :: rest2 =>
        if c2.isDigit then some (digitVal c1 * 10 + digitVal c2, rest2)
        else some (digitVal c1, rest)
      | [] => some (digitVal c1, [])
    else none

def natCharsAux : Nat → Nat → List Char
  | 0, _ => []
  | fuel + 1, n =>
    if n < 10 then [Char.ofNat (48 + n)]
    else natCharsAux fuel (n / 10) ++ [Char.ofNat (48 + n % 10)]

/-- Decimal digits of a number, as Python `str(n)`. -/
def natChars (n : Nat) : List Char := natCharsAux (n + 1) n

/-- Zero-pad to a width, as the `strftime` fields `%Y`, `%m`, ... do. -/
def padZero (w n : Nat) : List Char :=
  let s := natChars n
  List.replicate (w - s.length) '0' ++ s

/-- Recover `(month, day-in-month)` from a year and a 1-based day of year,
peeling months (at most 11 steps from January). -/
def monthDayAux (y : Nat) : Nat → Nat → Nat → Nat × Nat
  | 0, m, n => (m, n)
  | fuel + 1, m, n =>
    if n ≤ daysInMonth y m then (m, n) else monthDayAux y fuel (m + 1) (n - daysInMonth y m)

/-- Recover `(year, month, day)` from a day number. -/
def ymdOf (rd : Nat) : Nat × Nat × Nat :=
  let p := yearOf rd 1 rd
  let md := monthDayAux p.1 11 1 p.2
  (p.1, md.1, md.2)

/-- Python `dt.strftime("%Y%m%dT%H%M%S")`: no zone designator is
appended, the wall-clock fields are formatted as they stand. -/
def strftimeBasic (dt : DateTime) : List Char :=
  let ymd := ymdOf dt.rd
  padZero 4 ymd.1 ++ padZero 2 ymd.2.1 ++ padZero 2 ymd.2.2 ++ ['T'] ++
    padZero 2 (dt.minute / 60) ++ padZero 2 (dt.minute % 60) ++ padZero 2 dt.second

/-! ## schedule_item.py: Weekday, RepeatEnd, repeat rules, ScheduleItem -/

inductive Weekday where
  | monday | tuesday | wednesday | thursday | friday | saturday | sunday
deriving DecidableEq, Repr

def Weekday.toNat : Weekday → Nat
  | .monday => 0
  | .tuesday => 1
  | .wednesday => 2
  | .thursday => 3
  | .friday => 4
  | .saturday => 5
  | .sunday => 6

def Weekday.ical : Weekday → List Char
  | .monday => "MO".data
  | .tuesday => "TU".data
  | .wednesday => "WE".data
  | .thursday => "TH".data
  | .friday => "FR".data
  | .saturday => "SA".data
  | .sunday => "SU".data

/-- `RepeatEnd` with its two concrete subclasses `EndByDate` / `EndByCount`,
as the tagged union the class hierarchy denotes. -/
inductive RepeatEnd where
  | endByDate (untilDate : DateTime)
  | endByCount (count : Nat)
deriving DecidableEq, Repr

/-- `EndByDate.to_rrule_arg_str` / `EndByCount.to_rrule_arg_str`:
local wall-clock formatting, no `Z` suffix. -/
def RepeatEnd.to_rrule_arg_str : RepeatEnd → List Char
  | .endByDate u => "UNTIL=".data ++ strftimeBasic u
  | .endByCount c => "COUNT=".data ++ natChars c

/-- `BaseRepeatRule` and its concrete subclasses, as a tagged union. -/
inductive RepeatRule where
  | weekly (weekdays : List Weekday) (interval : Nat) (endRule : Option RepeatEnd)
  | daily (interval : Nat) (endRule : Option RepeatEnd)
  | monthly (bymonthday : Option Nat) (interval : Nat) (endRule : Option RepeatEnd)
  | yearly (interval : Nat) (endRule : Option RepeatEnd)
deriving DecidableEq, Repr

def RepeatRule.interval : RepeatRule → Nat
  | .weekly _ i _ => i
  | .daily i _ => i
  | .monthly _ i _ => i
  | .yearly i _ => i

def RepeatRule.endRule : RepeatRule → Option RepeatEnd
  | .weekly _ _ e => e
  | .daily _ e => e
  | .monthly _ _ e => e
  | .yearly _ e => e

/-- The subclass hooks `_to_rrule_str_args`.  A `bymonthday` of 0 is falsy
in Python, hence skipped like `None`. -/
def RepeatRule.to_rrule_str_args : RepeatRule → List (List Char)
  | .weekly wds _ _ =>
    "FREQ=WEEKLY".data ::
      (if wds = [] then []
       else ["BYDAY=".data ++ joinWith ",".data (wds.map Weekday.ical)])
  | .daily _ _ => ["FREQ=DAILY".data]
  | .monthly bmd _ _ =>
    "FREQ=MONTHLY".data ::
      (match bmd with
       | some n => if n = 0 then [] else ["BYMONTHDAY=".data ++ natChars n]
       | none => [])
  | .yearly _ _ => ["FREQ=YEARLY".data]

/-- `BaseRepeatRule.to_rrule_str`: appends `INTERVAL=` and the end clause to
the subclass args, then prepends the literal text `FREQ=WEEKLY;` of the
format string, exactly as the source does. -/
def RepeatRule.to_rrule_str (r : RepeatRule) : List Char :=
  let parts := r.to_rrule_str_args ++ ["INTERVAL=".data ++ natChars r.interval] ++
    (match r.endRule with
     | some e => [e.to_rrule_arg_str]
     | none => [])
  "FREQ=WEEKLY;".data ++ joinWith ";".data parts

structure ScheduleItem where
  start_datetime : DateTime
  end_datetime : DateTime
  subject : List Char
  lesson_type : List Char
  audience : List Char
  building : List Char
  teacher : List Char
  department : List Char
  repeat_rule : Option RepeatRule
deriving DecidableEq, Repr

def dateOrderMsg : List Char :=
  "start_datetime must be strictly before end_datetime".data

/-- `ScheduleItem.__init__`: stores every field, then `_validate` checks
`start_datetime >= end_datetime` and raises `ValueError` on violation (the
half-constructed object is discarded with the exception). -/
def ScheduleItem.build (start_datetime end_datetime : DateTime)
    (subject lesson_type audience building teacher department : List Char)
    (repeat_rule : Option RepeatRule) : Except (List Char) ScheduleItem :=
  if DateTime.ltb start_datetime end_datetime then
    .ok ⟨start_datetime, end_datetime, subject, lesson_type, audience,
      building, teacher, department, repeat_rule⟩
  else .error dateOrderMsg

/-- The `start_datetime` property setter: it first stores the new value in
`_start_datetime` and only then runs `_validate_dates`, so when validation
raises the object keeps the new value.  Modelled as the post-state paired
with the optional raised error. -/
def ScheduleItem.setStart (it : ScheduleItem) (v : DateTime) :
    ScheduleItem × Option (List Char) :=
  let it2 := { it with start_datetime := v }
  (it2, if DateTime.ltb it2.start_datetime it2.end_datetime then none else some dateOrderMsg)

/-- The `end_datetime` property setter, store-then-validate like
`setStart`. -/
def ScheduleItem.setEnd (it : ScheduleItem) (v : DateTime) :
    ScheduleItem × Option (List Char) :=
  let it2 := { it with end_datetime := v }
  (it2, if DateTime.ltb it2.start_datetime it2.end_datetime then none else some dateOrderMsg)

/-! ## parser.py -/

/-- One raw JSON event record.  `event.get(key, "")` defaults a missing
key to the empty string, so records are modelled with all eight fields
present, absence being the empty string. -/
structure PyEvent where
  disciplName : List Char
  disciplType : List Char
  audNum : List Char
  buildNum : List Char
  prepodName : List Char
  orgUnitName : List Char
  dayTime : List Char
  dayDate : List Char
deriving DecidableEq, Repr

structure JSONScheduleParser where
  data : List (List Char × List PyEvent)
  start_year : Nat
  semester_start : DateTime
  semester_end : DateTime
deriving DecidableEq, Repr

/-- `JSONScheduleParser.__init__` past the `json.loads` call: stores the
decoded data and the start year and derives the semester window —
September 1 through December 31 of `start_year`, midnight,
Europe/Moscow. -/
def JSONScheduleParser.init (data : List (List Char × List PyEvent))
    (start_year : Nat) : JSONScheduleParser :=
  { data := data
    start_year := start_year
    semester_start := ⟨rataDie start_year 9 1, 0, 0, moscow⟩
    semester_end := ⟨rataDie start_year 12 31, 0, 0, moscow⟩ }

/-- The instance dictionary `weekday_map`. -/
def weekday_map (k : List Char) : Option Weekday :=
  if k = "1".data then some .monday
  else if k = "2".data then some .tuesday
  else if k = "3".data then some .wednesday
  else if k = "4".data then some .thursday
  else if k = "5".data then some .friday
  else if k = "6".data then some .saturday
  else if k = "7".data then some .sunday
  else none

/-- `_is_even_week`: the ISO week number of the date is even. -/
def is_even_week (rd : Nat) : Bool :=
  isoWeekNum rd % 2 == 0

def timeErrMsg : List Char := "time data does not match format".data

/-- `_parse_time`: `datetime.strptime(s.strip(), "%H:%M").time()`.
`%H` and `%M` each consume one or two digits with the value ranges
0–23 and 0–59, and the whole string must be consumed. -/
def parse_time (timeStr : List Char) : Except (List Char) (Nat × Nat) :=
  match read2 (pyStrip timeStr) with
  | some (h, ':' :: rest) =>
    (match read2 rest with
     | some (m, []) =>
       if h ≤ 23 ∧ m ≤ 59 then .ok (h, m) else .error timeErrMsg
     | _ => .error timeErrMsg)
  | _ => .error timeErrMsg

def dateErrMsg : List Char := "date data does not match format".data

/-- One `DD.MM` fragment via
`datetime.strptime(frag ++ "." ++ str(year), "%d.%m.%Y")` followed by
`.replace(tzinfo=Europe/Moscow)`: day and month are one or two digits,
the day must exist in the month, and `%Y` requires the year to print as
exactly four digits. -/
def parse_date_fragment (year : Nat) (frag : List Char) :
    Except (List Char) DateTime :=
  match read2 frag with
  | some (d, '.' :: rest) =>
    (match read2 rest with
     | some (m, []) =>
       if 1 ≤ m ∧ m ≤ 12 ∧ 1 ≤ d ∧ d ≤ daysInMonth year m ∧
           1000 ≤ year ∧ year ≤ 9999 then
         .ok ⟨rataDie year m d, 0, 0, moscow⟩
       else .error dateErrMsg
     | _ => .error dateErrMsg)
  | _ => .error dateErrMsg

/-- The loop body of `_parse_dates` over the whitespace-split fragments
(each fragment is re-stripped and skipped when empty, a no-op for the
output of `split()`). -/
def parse_date_list (year : Nat) : List (List Char) → Except (List Char) (List DateTime)
  | [] => .ok []
  | f :: fs =>
    let f2 := pyStrip f
    if f2 = [] then parse_date_list year fs
    else
      match parse_date_fragment year f2 with
      | .error m => .error m
      | .ok d =>
        match parse_date_list year fs with
        | .error m => .error m
        | .ok ds => .ok (d :: ds)

/-- `_parse_dates`. -/
def parse_dates (year : Nat) (dateStr : List Char) :
    Except (List Char) (List DateTime) :=
  let s := pyStrip dateStr
  if s = [] then .ok []
  else parse_date_list year (splitWs s)

/-- The `while current_date.weekday() != target_weekday` loop of
`_get_first_occurrence`; the weekday repeats with period 7, so 7 steps of
fuel always reach the exit condition. -/
def findWeekdayLoop : Nat → Nat → DateTime → DateTime
  | 0, _, d => d
  | fuel + 1, w, d =>
    if pyWeekday d.rd = w then d else findWeekdayLoop fuel w (d.addDays 1)

/-- `_get_first_occurrence`. -/
def get_first_occurrence (target : Weekday) (start_date : DateTime)
    (isEven : Bool) : DateTime :=
  let d0 := findWeekdayLoop 7 target.toNat start_date
  if isEven != is_even_week d0.rd then d0.addDays 7 else d0

/-- `datetime.combine(start_date, start_time).replace(tzinfo=Europe/Moscow)`. -/
def combine (d : DateTime) (hm : Nat × Nat) : DateTime :=
  ⟨d.rd, hm.1 * 60 + hm.2, 0, moscow⟩

/-- The body of the `for event in events` loop of `parse`, returning the
items this record contributes (`[]` when the record is skipped) or the
propagated error. -/
def processEvent (p : JSONScheduleParser) (target : Weekday) (e : PyEvent) :
    Except (List Char) (List ScheduleItem) :=
  let subject := pyStrip e.disciplName
  let lesson_type := pyStrip e.disciplType
  let audience := pyStrip e.audNum
  let building := pyStrip e.buildNum
  let teacher := pyStrip e.prepodName
  let department := pyStrip e.orgUnitName
  let timeStr := pyStrip e.dayTime
  let dateStr := pyStrip e.dayDate
  if subject = [] ∨ lesson_type = [] ∨ audience = [] ∨ building = [] ∨
      teacher = [] ∨ department = [] ∨ timeStr = [] then
    .ok []
  else
    match parse_time timeStr with
    | .error msg => .error msg
    | .ok startTime =>
      if dateStr = "чет".data ∨ dateStr = "неч".data then
        let isEven : Bool := dateStr == "чет".data
        let start_date := get_first_occurrence target p.semester_start isEven
        let start_dt := combine start_date startTime
        let end_dt := start_dt.addMinutes 90
        match ScheduleItem.build start_dt end_dt subject lesson_type audience
            building teacher department
            (some (.weekly [target] 2 (some (.endByDate p.semester_end)))) with
        | .error m => .error m
        | .ok it => .ok [it]
      else if dateStr ≠ [] then
        match parse_dates p.start_year dateStr with
        | .error m => .error m
        | .ok ds => buildSingles ds startTime subject lesson_type audience
            building teacher department
      else
        let start_date := get_first_occurrence target p.semester_start
          (is_even_week p.semester_start.rd)
        let start_dt := combine start_date startTime
        let end_dt := start_dt.addMinutes 90
        match ScheduleItem.build start_dt end_dt subject lesson_type audience
            building teacher department
            (some (.weekly [target] 1 (some (.endByDate p.semester_end)))) with
        | .error m => .error m
        | .ok it => .ok [it]
where
  buildSingles : List DateTime → Nat × Nat → List Char → List Char →
      List Char → List Char → List Char → List Char →
      Except (List Char) (List ScheduleItem)
  | [], _, _, _, _, _, _, _ => .ok []
  | d :: ds, st, su, lt, au, bu, te, de =>
    match ScheduleItem.build (combine d st) ((combine d st).addMinutes 90)
        su lt au bu te de none with
    | .error m => .error m
    | .ok it =>
      match buildSingles ds st su lt au bu te de with
      | .error m => .error m
      | .ok its => .ok (it :: its)

/-- The `for event in events` loop of `parse` for one weekday. -/
def processEvents (p : JSONScheduleParser) (target : Weekday) :
    List PyEvent → Except (List Char) (List ScheduleItem)
  | [] => .ok []
  | e :: es =>
    match processEvent p target e with
    | .error m => .error m
    | .ok xs =>
      match processEvents p target es with
      | .error m => .error m
      | .ok ys => .ok (xs ++ ys)

/-- The outer `for day_num, events in self.data.items()` loop of `parse`:
unrecognized weekday keys are skipped. -/
def parseDays (p : JSONScheduleParser) :
    List (List Char × List PyEvent) → Except (List Char) (List ScheduleItem)
  | [] => .ok []
  | (k, evs) :: rest =>
    match weekday_map k with
    | none => parseDays p rest
    | some w =>
      match processEvents p w evs with
      | .error m => .error m
      | .ok xs =>
        match parseDays p rest with
        | .error m => .error m
        | .ok ys => .ok (xs ++ ys)

/-- `JSONScheduleParser.parse`. -/
def JSONScheduleParser.parse (p : JSONScheduleParser) :
    Except (List Char) (List ScheduleItem) :=
  parseDays p p.data

/-- `create_ics_calendar`. -/
def create_ics_calendar (events : List (List Char)) : List Char :=
  joinWith ['\n']
    (["BEGIN:VCALENDAR".data, "VERSION:2.0".data,
      "PRODID:-//KAI Schedule Parser//EN".data] ++ events ++
      ["END:VCALENDAR".data])

/-! ## Calendar lemmas -/

theorem daysInYear_ge (y : Nat) : 365 ≤ daysInYear y := by
  unfold daysInYear; split <;> omega

theorem daysInYear_le (y : Nat) : daysInYear y ≤ 366 := by
  unfold daysInYear; split <;> omega

theorem isLeap_iff (y : Nat) :
    isLeap y = true ↔ (y % 4 = 0 ∧ y % 100 ≠ 0) ∨ y % 400 = 0 := by
  simp [isLeap]

theorem daysInYear_eq (y : Nat) :
    daysInYear y = if (y % 4 = 0 ∧ y % 100 ≠ 0) ∨ y % 400 = 0 then 366 else 365 := by
  unfold daysInYear
  rcases Decidable.em ((y % 4 = 0 ∧ y % 100 ≠ 0) ∨ y % 400 = 0) with h | h
  · rw [if_pos ((isLeap_iff y).2 h), if_pos h]
  · rw [if_neg (fun hh => h ((isLeap_iff y).1 hh)), if_neg h]

theorem daysBefore_step_leap (n : Nat)
    (h : ((n + 1) % 4 = 0 ∧ (n + 1) % 100 ≠ 0) ∨ (n + 1) % 400 = 0) :
    365 * (n + 1) + (n + 1) / 4 + (n + 1) / 400 - (n + 1) / 100 =
      365 * n + n / 4 + n / 400 - n / 100 + 366 := by
  omega

theorem daysBefore_step_common (n : Nat) (h2 : (n + 1) % 400 ≠ 0)
    (h3 : (n + 1) % 4 ≠ 0 ∨ (n + 1) % 100 = 0) :
    365 * (n + 1) + (n + 1) / 4 + (n + 1) / 400 - (n + 1) / 100 =
      365 * n + n / 4 + n / 400 - n / 100 + 365 := by
  have e4 : (n + 1) / 4 = n / 4 + (if (n + 1) % 4 = 0 then 1 else 0) := by
    split <;> omega
  have e100 : (n + 1) / 100 = n / 100 + (if (n + 1) % 100 = 0 then 1 else 0) := by
    split <;> omega
  have e400 : (n + 1) / 400 = n / 400 + (if (n + 1) % 400 = 0 then 1 else 0) := by
    split <;> omega
  rw [e4, e100, e400]
  split_ifs with a b c <;> simp only [Nat.add_zero] <;> omega

theorem daysBefore_succ (y : Nat) (hy : 1 ≤ y) :
    daysBefore (y + 1) = daysBefore y + daysInYear y := by
  obtain ⟨n, rfl⟩ : ∃ n, y = n + 1 := ⟨y - 1, by omega⟩
  rw [daysInYear_eq]
  unfold daysBefore
  simp only [Nat.add_sub_cancel]
  split
  · rename_i h
    exact daysBefore_step_leap n h
  · rename_i h
    have h2 : (n + 1) % 400 ≠ 0 := fun hh => h (Or.inr hh)
    have h3 : (n + 1) % 4 ≠ 0 ∨ (n + 1) % 100 = 0 := by
      by_cases h4 : (n + 1) % 4 = 0
      · by_cases h100 : (n + 1) % 100 = 0
        · exact Or.inr h100
        · exact absurd (Or.inl ⟨h4, h100⟩) h
      · exact Or.inl h4
    exact daysBefore_step_common n h2 h3

theorem daysBefore_mono (a b : Nat) (ha : 1 ≤ a) (hab : a ≤ b) :
    daysBefore a ≤ daysBefore b := by
  induction b, hab using Nat.le_induction with
  | base => exact Nat.le_refl _
  | succ n hn ih =>
    have := daysBefore_succ n (ha.trans hn)
    omega

theorem yearOf_peel : ∀ g y0, 1 ≤ y0 → ∀ q fuel, 1 ≤ q → q ≤ daysInYear (y0 + g) →
    daysBefore (y0 + g) + q ≤ daysBefore y0 + fuel →
    yearOf fuel y0 (daysBefore (y0 + g) + q - daysBefore y0) = (y0 + g, q) := by
  intro g
  induction g with
  | zero =>
    intro y0 hy0 q fuel hq1 hq2 hfuel
    simp only [Nat.add_zero] at hq2 hfuel ⊢
    have hn : daysBefore y0 + q - daysBefore y0 = q := by omega
    rw [hn]
    cases fuel with
    | zero => omega
    | succ f =>
      simp only [yearOf]
      rw [if_pos hq2]
  | succ g ih =>
    intro y0 hy0 q fuel hq1 hq2 hfuel
    have hidx : y0 + (g + 1) = (y0 + 1) + g := by omega
    rw [hidx] at hq2 hfuel ⊢
    have hstep : daysBefore (y0 + 1) = daysBefore y0 + daysInYear y0 :=
      daysBefore_succ y0 hy0
    have hmono : daysBefore (y0 + 1) ≤ daysBefore ((y0 + 1) + g) :=
      daysBefore_mono (y0 + 1) ((y0 + 1) + g) (by omega) (by omega)
    have h365 : 365 ≤ daysInYear y0 := daysInYear_ge y0
    cases fuel with
    | zero => exfalso; omega
    | succ f =>
      simp only [yearOf]
      rw [if_neg (by omega)]
      have harg : daysBefore ((y0 + 1) + g) + q - daysBefore y0 - daysInYear y0 =
          daysBefore ((y0 + 1) + g) + q - daysBefore (y0 + 1) := by omega
      rw [harg]
      exact ih (y0 + 1) (by omega) q f hq1 hq2 (by omega)

theorem yearOf_correct (y q : Nat) (hy : 1 ≤ y) (hq1 : 1 ≤ q)
    (hq2 : q ≤ daysInYear y) :
    yearOf (daysBefore y + q) 1 (daysBefore y + q) = (y, q) := by
  have h0 : daysBefore 1 = 0 := rfl
  have hidx : 1 + (y - 1) = y := by omega
  have := yearOf_peel (y - 1) 1 (Nat.le_refl 1) q (daysBefore y + q)
    hq1 (by rw [hidx]; exact hq2) (by rw [hidx, h0]; omega)
  rw [hidx, h0] at this
  simpa using this

theorem pyWeekday_lt (rd : Nat) : pyWeekday rd < 7 :=
  Nat.mod_lt _ (by norm_num)

theorem isoWeekNum_inYear (y q : Nat) (hy : 1 ≤ y) (hq1 : 4 ≤ q) (hq2 : q ≤ 359) :
    isoWeekNum (daysBefore y + q) =
      (q + 3 - pyWeekday (daysBefore y + q) - 1) / 7 + 1 := by
  have hw : pyWeekday (daysBefore y + q) < 7 := pyWeekday_lt _
  unfold isoWeekNum
  have hth : daysBefore y + q + 3 - pyWeekday (daysBefore y + q) =
      daysBefore y + (q + 3 - pyWeekday (daysBefore y + q)) := by omega
  rw [hth, yearOf_correct y (q + 3 - pyWeekday (daysBefore y + q)) hy (by omega)
    (by have := daysInYear_ge y; omega)]

theorem isoWeekNum_add7 (y q : Nat) (hy : 1 ≤ y) (hq1 : 4 ≤ q) (hq2 : q ≤ 352) :
    isoWeekNum (daysBefore y + q + 7) = isoWeekNum (daysBefore y + q) + 1 := by
  have hw : pyWeekday (daysBefore y + q) < 7 := pyWeekday_lt _
  have hw7 : pyWeekday (daysBefore y + q + 7) = pyWeekday (daysBefore y + q) := by
    unfold pyWeekday; omega
  have h1 := isoWeekNum_inYear y q hy hq1 (by omega)
  have h2 := isoWeekNum_inYear y (q + 7) hy (by omega) (by omega)
  rw [show daysBefore y + (q + 7) = daysBefore y + q + 7 from by omega] at h2
  rw [h2, hw7, h1]
  omega

theorem is_even_week_add7 (y q : Nat) (hy : 1 ≤ y) (hq1 : 4 ≤ q) (hq2 : q ≤ 352) :
    is_even_week (daysBefore y + q + 7) = !is_even_week (daysBefore y + q) := by
  unfold is_even_week
  rw [isoWeekNum_add7 y q hy hq1 hq2]
  rcases Nat.mod_two_eq_zero_or_one (isoWeekNum (daysBefore y + q)) with h | h
  · have h1 : (isoWeekNum (daysBefore y + q) + 1) % 2 = 1 := by omega
    rw [h, h1]
    decide
  · have h1 : (isoWeekNum (daysBefore y + q) + 1) % 2 = 0 := by omega
    rw [h, h1]
    decide

/-! ## The weekday search loop and first occurrences -/

theorem Weekday.toNat_lt (w : Weekday) : w.toNat < 7 := by
  cases w <;> decide

theorem findWeekdayLoop_spec (w : Nat) (hw : w < 7) (d : DateTime) :
    (findWeekdayLoop 7 w d).minute = d.minute ∧
    (findWeekdayLoop 7 w d).second = d.second ∧
    (findWeekdayLoop 7 w d).tz = d.tz ∧
    d.rd ≤ (findWeekdayLoop 7 w d).rd ∧
    (findWeekdayLoop 7 w d).rd ≤ d.rd + 6 ∧
    pyWeekday (findWeekdayLoop 7 w d).rd = w ∧
    ∀ x, d.rd ≤ x → x < (findWeekdayLoop 7 w d).rd → pyWeekday x ≠ w := by
  simp only [findWeekdayLoop, DateTime.addDays, pyWeekday]
  split_ifs with h1 h2 h3 h4 h5 h6 h7 <;>
  · try dsimp only
    refine ⟨rfl, rfl, rfl, by omega, by omega, by omega, ?_⟩
    intro x hx1 hx2
    omega

theorem leapBit_le_one (b : Bool) : (if b = true then 1 else 0) ≤ 1 := by
  split <;> omega

theorem rataDie_sept1 (y : Nat) :
    rataDie y 9 1 = daysBefore y + (243 + (if isLeap y then 1 else 0)) + 1 := rfl

/-- The September parity flip, restated for an absolute day number lying in
the first two weeks after September 1. -/
theorem is_even_week_flip_sept (y : Nat) (hy : 1 ≤ y) (rd : Nat)
    (h1 : rataDie y 9 1 ≤ rd) (h2 : rd ≤ rataDie y 9 1 + 6) :
    is_even_week (rd + 7) = !is_even_week rd := by
  have hrd : rataDie y 9 1 = daysBefore y + (243 + (if isLeap y then 1 else 0)) + 1 :=
    rataDie_sept1 y
  have hl : (if isLeap y then 1 else 0) ≤ 1 := leapBit_le_one _
  have hflip := is_even_week_add7 y (rd - daysBefore y) hy (by omega) (by omega)
  rw [show daysBefore y + (rd - daysBefore y) = rd from by omega] at hflip
  exact hflip

theorem get_first_occurrence_sept (y : Nat) (hy : 1 ≤ y) (target : Weekday)
    (isEven : Bool) (S : DateTime) (hS : S.rd = rataDie y 9 1) :
    pyWeekday (get_first_occurrence target S isEven).rd = target.toNat ∧
    is_even_week (get_first_occurrence target S isEven).rd = isEven ∧
    S.rd ≤ (get_first_occurrence target S isEven).rd ∧
    (get_first_occurrence target S isEven).rd ≤ S.rd + 13 ∧
    (∀ x, S.rd ≤ x → x < (get_first_occurrence target S isEven).rd →
      ¬(pyWeekday x = target.toNat ∧ is_even_week x = isEven)) ∧
    (get_first_occurrence target S isEven).minute = S.minute ∧
    (get_first_occurrence target S isEven).second = S.second ∧
    (get_first_occurrence target S isEven).tz = S.tz ∧
    (get_first_occurrence target S isEven).rd =
      (if is_even_week (findWeekdayLoop 7 target.toNat S).rd = isEven
       then (findWeekdayLoop 7 target.toNat S).rd
       else (findWeekdayLoop 7 target.toNat S).rd + 7) := by
  obtain ⟨hmin, hsec, htz, hlo, hhi, hwd, hminim⟩ :=
    findWeekdayLoop_spec target.toNat (Weekday.toNat_lt target) S
  have hflip : is_even_week ((findWeekdayLoop 7 target.toNat S).rd + 7) =
      !is_even_week (findWeekdayLoop 7 target.toNat S).rd :=
    is_even_week_flip_sept y hy _ (by omega) (by omega)
  simp only [get_first_occurrence]
  cases hc : (isEven != is_even_week (findWeekdayLoop 7 target.toNat S).rd) with
  | false =>
    have heq : isEven = is_even_week (findWeekdayLoop 7 target.toNat S).rd :=
      bne_eq_false_iff_eq.1 hc
    rw [if_neg Bool.false_ne_true]
    refine ⟨hwd, heq.symm, hlo, by omega, ?_, hmin, hsec, htz, ?_⟩
    · intro x hx1 hx2 hconj
      exact hminim x hx1 hx2 hconj.1
    · rw [if_pos heq.symm]
  | true =>
    have hne : isEven ≠ is_even_week (findWeekdayLoop 7 target.toNat S).rd :=
      bne_iff_ne.1 hc
    rw [if_pos rfl]
    have hpar : is_even_week ((findWeekdayLoop 7 target.toNat S).rd + 7) = isEven := by
      rw [hflip]
      cases hie : isEven <;>
        cases hw0 : is_even_week (findWeekdayLoop 7 target.toNat S).rd <;>
        simp_all
    refine ⟨?_, ?_, ?_, ?_, ?_, ?_, ?_, ?_, ?_⟩
    · simp only [DateTime.addDays]
      simp only [pyWeekday] at hwd ⊢
      omega
    · simpa only [DateTime.addDays] using hpar
    · simp only [DateTime.addDays]; omega
    · simp only [DateTime.addDays]; omega
    · intro x hx1 hx2 hconj
      simp only [DateTime.addDays] at hx2
      by_cases hxd : x < (findWeekdayLoop 7 target.toNat S).rd
      · exact hminim x hx1 hxd hconj.1
      · by_cases hxe : x = (findWeekdayLoop 7 target.toNat S).rd
        · exact hne ((hxe ▸ hconj.2).symm)
        · have hxw := hconj.1
          simp only [pyWeekday] at hxw hwd
          omega
    · simp only [DateTime.addDays]; exact hmin
    · simp only [DateTime.addDays]; exact hsec
    · simp only [DateTime.addDays]; exact htz
    · simp only [DateTime.addDays]
      rw [if_neg]
      intro hcon
      exact hne hcon.symm

/-! ## Claim theorems -/

/-- C7: every ScheduleItem satisfies start_datetime < end_datetime strictly:
construction returns the validation error exactly when start ≥ end and
otherwise succeeds storing all fields as given; a reassignment of either
timestamp raises the validation error exactly when it would make
start ≥ end, and a reassignment that does not raise leaves the object
satisfying the invariant. -/
theorem schedule_item_start_before_end (s e : DateTime)
    (su lt au bu te de : List Char) (r : Option RepeatRule)
    (it : ScheduleItem) (v : DateTime) :
    (DateTime.ltb s e = true →
      ScheduleItem.build s e su lt au bu te de r =
        .ok ⟨s, e, su, lt, au, bu, te, de, r⟩) ∧
    (DateTime.ltb s e = false →
      ScheduleItem.build s e su lt au bu te de r = .error dateOrderMsg) ∧
    (∀ it2, ScheduleItem.build s e su lt au bu te de r = .ok it2 →
      DateTime.ltb it2.start_datetime it2.end_datetime = true) ∧
    ((ScheduleItem.setStart it v).2.isSome = true ↔
      DateTime.ltb v it.end_datetime = false) ∧
    ((ScheduleItem.setEnd it v).2.isSome = true ↔
      DateTime.ltb it.start_datetime v = false) ∧
    ((ScheduleItem.setStart it v).2 = none →
      DateTime.ltb (ScheduleItem.setStart it v).1.start_datetime
        (ScheduleItem.setStart it v).1.end_datetime = true) ∧
    ((ScheduleItem.setEnd it v).2 = none →
      DateTime.ltb (ScheduleItem.setEnd it v).1.start_datetime
        (ScheduleItem.setEnd it v).1.end_datetime = true) := by
  refine ⟨?_, ?_, ?_, ?_, ?_, ?_, ?_⟩
  · intro h
    unfold ScheduleItem.build
    rw [if_pos h]
  · intro h
    unfold ScheduleItem.build
    rw [if_neg (by rw [h]; exact Bool.false_ne_true)]
  · intro it2 h
    unfold ScheduleItem.build at h
    split_ifs at h with hlt
    all_goals cases h
    exact hlt
  · simp only [ScheduleItem.setStart]
    cases hlt : DateTime.ltb v it.end_datetime <;> simp [hlt]
  · simp only [ScheduleItem.setEnd]
    cases hlt : DateTime.ltb it.start_datetime v <;> simp [hlt]
  · simp only [ScheduleItem.setStart]
    cases hlt : DateTime.ltb v it.end_datetime <;> simp [hlt]
  · simp only [ScheduleItem.setEnd]
    cases hlt : DateTime.ltb it.start_datetime v <;> simp [hlt]

def demoItem : ScheduleItem :=
  ⟨⟨739495, 540, 0, moscow⟩, ⟨739495, 630, 0, moscow⟩, "Math".data, "лек".data,
    "101".data, "2".data, "Ivanov".data, "CS".data, none⟩

/-- Witness for C7 at concrete timestamps 2025-09-01 09:00 and 10:30. -/
theorem schedule_item_start_before_end_witness :
    ScheduleItem.build ⟨739495, 540, 0, moscow⟩ ⟨739495, 630, 0, moscow⟩
        "Math".data "лек".data "101".data "2".data "Ivanov".data "CS".data none =
      .ok ⟨⟨739495, 540, 0, moscow⟩, ⟨739495, 630, 0, moscow⟩, "Math".data,
        "лек".data, "101".data, "2".data, "Ivanov".data, "CS".data, none⟩ ∧
    ScheduleItem.build ⟨739495, 630, 0, moscow⟩ ⟨739495, 540, 0, moscow⟩
        "Math".data "лек".data "101".data "2".data "Ivanov".data "CS".data none =
      .error dateOrderMsg ∧
    (ScheduleItem.setStart demoItem ⟨739495, 700, 0, moscow⟩).2.isSome = true :=
  ⟨(schedule_item_start_before_end ⟨739495, 540, 0, moscow⟩ ⟨739495, 630, 0, moscow⟩
      "Math".data "лек".data "101".data "2".data "Ivanov".data "CS".data none
      demoItem ⟨739495, 700, 0, moscow⟩).1 (by decide),
   (schedule_item_start_before_end ⟨739495, 630, 0, moscow⟩ ⟨739495, 540, 0, moscow⟩
      "Math".data "лек".data "101".data "2".data "Ivanov".data "CS".data none
      demoItem ⟨739495, 700, 0, moscow⟩).2.1 (by decide),
   (schedule_item_start_before_end ⟨739495, 540, 0, moscow⟩ ⟨739495, 630, 0, moscow⟩
      "Math".data "лек".data "101".data "2".data "Ivanov".data "CS".data none
      demoItem ⟨739495, 700, 0, moscow⟩).2.2.2.1.2 (by decide)⟩

/-- C9: the property setters store the new value before validating, so when
a reassignment that violates start < end raises, the object is left holding
the violating timestamp (the failed mutation is not rolled back). -/
theorem setter_stores_then_raises (it : ScheduleItem) (v : DateTime)
    (hvalid : DateTime.ltb it.start_datetime it.end_datetime = true) :
    (DateTime.ltb v it.end_datetime = false →
      (ScheduleItem.setStart it v).2.isSome = true ∧
      (ScheduleItem.setStart it v).1.start_datetime = v ∧
      (ScheduleItem.setStart it v).1.end_datetime = it.end_datetime) ∧
    (DateTime.ltb it.start_datetime v = false →
      (ScheduleItem.setEnd it v).2.isSome = true ∧
      (ScheduleItem.setEnd it v).1.end_datetime = v ∧
      (ScheduleItem.setEnd it v).1.start_datetime = it.start_datetime) := by
  constructor
  · intro h
    simp only [ScheduleItem.setStart]
    rw [if_neg (show ¬ DateTime.ltb v it.end_datetime = true by
      rw [h]; exact Bool.false_ne_true)]
    exact ⟨rfl, trivial, trivial⟩
  · intro h
    simp only [ScheduleItem.setEnd]
    rw [if_neg (show ¬ DateTime.ltb it.start_datetime v = true by
      rw [h]; exact Bool.false_ne_true)]
    exact ⟨rfl, trivial, trivial⟩

/-- Witness for C9: a valid item mutated to start 11:40, at/after its
10:30 end, keeps the violating start while the error is raised. -/
theorem setter_stores_then_raises_witness :
    (ScheduleItem.setStart demoItem ⟨739495, 700, 0, moscow⟩).2.isSome = true ∧
    (ScheduleItem.setStart demoItem ⟨739495, 700, 0, moscow⟩).1.start_datetime =
      ⟨739495, 700, 0, moscow⟩ ∧
    (ScheduleItem.setStart demoItem ⟨739495, 700, 0, moscow⟩).1.end_datetime =
      demoItem.end_datetime :=
  (setter_stores_then_raises demoItem ⟨739495, 700, 0, moscow⟩ (by decide)).1 (by decide)

set_option maxRecDepth 100000 in
/-- C2 (documenting the defect): serializing a weekly rule emits the
frequency component twice — `BaseRepeatRule.to_rrule_str` prepends the
literal `FREQ=WEEKLY;` to arguments that already begin with their own
frequency component.  Evaluated at the failing input
`WeeklyRepeatRule([MONDAY], 2, EndByDate(2025-12-31 00:00))`, and shown for
every weekly rule: the first 24 characters are always
`FREQ=WEEKLY;FREQ=WEEKLY;`. -/
theorem weekly_rrule_freq_duplicated :
    (RepeatRule.weekly [.monday] 2
        (some (.endByDate ⟨rataDie 2025 12 31, 0, 0, moscow⟩))).to_rrule_str =
      "FREQ=WEEKLY;FREQ=WEEKLY;BYDAY=MO;INTERVAL=2;UNTIL=20251231T000000".data ∧
    ∀ (wds : List Weekday) (i : Nat) (e : Option RepeatEnd),
      ((RepeatRule.weekly wds i e).to_rrule_str).take 24 =
        "FREQ=WEEKLY;FREQ=WEEKLY;".data := by
  constructor
  · rfl
  · intro wds i e
    cases wds <;> rfl

/-- C3 (documenting the defect): the parser constructor takes only a start
year and derives the semester window itself — September 1 through
December 31 of that year, Europe/Moscow — rather than accepting the
caller-supplied start and end timestamps; in particular it cannot represent
the spring window (2026-02-02 .. 2026-05-31) the repository's own entry
point tries to pass. -/
theorem semester_window_not_caller_supplied
    (data : List (List Char × List PyEvent)) (y : Nat) :
    (JSONScheduleParser.init data y).semester_start = ⟨rataDie y 9 1, 0, 0, moscow⟩ ∧
    (JSONScheduleParser.init data y).semester_end = ⟨rataDie y 12 31, 0, 0, moscow⟩ ∧
    (JSONScheduleParser.init data 2026).semester_start.rd ≠ rataDie 2026 2 2 ∧
    (JSONScheduleParser.init data 2026).semester_end.rd ≠ rataDie 2026 5 31 :=
  ⟨rfl, rfl,
   show rataDie 2026 9 1 ≠ rataDie 2026 2 2 by decide,
   show rataDie 2026 12 31 ≠ rataDie 2026 5 31 by decide⟩

/-- C10: for every target weekday, start datetime and parity flag, the
first-occurrence computation lands on the target weekday, preserves the
start's time of day and time zone, and lies between 0 and 13 days after
the start. -/
theorem first_occurrence_bounds (target : Weekday) (start : DateTime)
    (isEven : Bool) :
    pyWeekday (get_first_occurrence target start isEven).rd = target.toNat ∧
    (get_first_occurrence target start isEven).minute = start.minute ∧
    (get_first_occurrence target start isEven).second = start.second ∧
    (get_first_occurrence target start isEven).tz = start.tz ∧
    start.rd ≤ (get_first_occurrence target start isEven).rd ∧
    (get_first_occurrence target start isEven).rd ≤ start.rd + 13 := by
  obtain ⟨hmin, hsec, htz, hlo, hhi, hwd, _⟩ :=
    findWeekdayLoop_spec target.toNat (Weekday.toNat_lt target) start
  simp only [get_first_occurrence]
  split
  · simp only [DateTime.addDays]
    refine ⟨?_, hmin, hsec, htz, by omega, by omega⟩
    simp only [pyWeekday] at hwd ⊢
    omega
  · exact ⟨hwd, hmin, hsec, htz, by omega, by omega⟩

/-! ## Calendar assembly (C8) -/

theorem splitNl_ne_nil (cs : List Char) : splitNl cs ≠ [] := by
  induction cs with
  | nil => exact List.cons_ne_nil _ _
  | cons c cs ih =>
    simp only [splitNl]
    split
    · exact List.cons_ne_nil _ _
    · split
      · exact List.cons_ne_nil _ _
      · exact List.cons_ne_nil _ _

theorem splitNl_append_nl (xs ys : List Char) :
    splitNl (xs ++ '\n' :: ys) = splitNl xs ++ splitNl ys := by
  induction xs with
  | nil => simp [splitNl]
  | cons c xs ih =>
    by_cases hc : c = '\n'
    · subst hc
      simp [splitNl, ih]
    · simp only [List.cons_append, splitNl, if_neg hc, List.append_eq]
      rw [ih]
      cases h : splitNl xs with
      | nil => exact absurd h (splitNl_ne_nil xs)
      | cons t ts => simp

theorem splitNl_joinWith (l : List (List Char)) (hl : l ≠ []) :
    splitNl (joinWith ['\n'] l) = (l.map splitNl).flatten := by
  induction l with
  | nil => exact absurd rfl hl
  | cons x xs ih =>
    cases xs with
    | nil => simp [joinWith]
    | cons y ys =>
      have hj : joinWith ['\n'] (x :: y :: ys) =
          x ++ '\n' :: joinWith ['\n'] (y :: ys) := by
        simp [joinWith]
      rw [hj, splitNl_append_nl, ih (by simp)]
      simp

theorem count_flatten_zero (a : List Char) (L : List (List (List Char)))
    (h : ∀ x ∈ L, ¬ a ∈ x) : List.count a L.flatten = 0 := by
  rw [List.count_flatten]
  induction L with
  | nil => rfl
  | cons x xs ih =>
    simp only [List.map_cons, List.sum_cons]
    rw [List.count_eq_zero.2 (h x (by simp)), ih (fun z hz => h z (by simp [hz]))]

/-- C8 counterexample: an event block that itself consists of the line
`BEGIN:VCALENDAR` is passed through unchanged, so the assembled document
contains that line twice — the claimed "exactly one pair regardless of
block contents" fails. -/
theorem calendar_marker_in_block_counterexample :
    List.count "BEGIN:VCALENDAR".data
      (splitNl (create_ics_calendar ["BEGIN:VCALENDAR".data])) = 2 := by decide

/-- C8 as amended: the assembled document is exactly the three header
lines, then every input block unchanged and in order (each contributing
its own lines), then the single footer line, all joined by newlines; and
provided no input block itself contains a `BEGIN:VCALENDAR` or
`END:VCALENDAR` line, the document contains each marker line exactly
once. -/
theorem calendar_assembly_lines (evs : List (List Char))
    (hB : ∀ b ∈ evs, ¬ "BEGIN:VCALENDAR".data ∈ splitNl b)
    (hE : ∀ b ∈ evs, ¬ "END:VCALENDAR".data ∈ splitNl b) :
    splitNl (create_ics_calendar evs) =
      "BEGIN:VCALENDAR".data :: "VERSION:2.0".data ::
        "PRODID:-//KAI Schedule Parser//EN".data ::
        ((evs.map splitNl).flatten ++ ["END:VCALENDAR".data]) ∧
    List.count "BEGIN:VCALENDAR".data (splitNl (create_ics_calendar evs)) = 1 ∧
    List.count "END:VCALENDAR".data (splitNl (create_ics_calendar evs)) = 1 := by
  have hsplit : splitNl (create_ics_calendar evs) =
      "BEGIN:VCALENDAR".data :: "VERSION:2.0".data ::
        "PRODID:-//KAI Schedule Parser//EN".data ::
        ((evs.map splitNl).flatten ++ ["END:VCALENDAR".data]) := by
    unfold create_ics_calendar
    rw [splitNl_joinWith _ (by simp)]
    simp only [List.map_append, List.map_cons, List.map_nil, List.flatten_append,
      List.flatten_cons, List.flatten_nil]
    rfl
  refine ⟨hsplit, ?_, ?_⟩
  · rw [hsplit]
    simp only [List.count_cons, List.count_append]
    rw [count_flatten_zero _ _ (by
      intro x hx
      rw [List.mem_map] at hx
      obtain ⟨b, hb, rfl⟩ := hx
      exact hB b hb)]
    decide
  · rw [hsplit]
    simp only [List.count_cons, List.count_append]
    rw [count_flatten_zero _ _ (by
      intro x hx
      rw [List.mem_map] at hx
      obtain ⟨b, hb, rfl⟩ := hx
      exact hE b hb)]
    decide

/-- Witness for C8 (amended) on a two-block document with multi-line
blocks. -/
theorem calendar_assembly_lines_witness :
    splitNl (create_ics_calendar ["BEGIN:VEVENT\nEND:VEVENT".data, "X".data]) =
      "BEGIN:VCALENDAR".data :: "VERSION:2.0".data ::
        "PRODID:-//KAI Schedule Parser//EN".data ::
        ((["BEGIN:VEVENT\nEND:VEVENT".data, "X".data].map splitNl).flatten ++
          ["END:VCALENDAR".data]) ∧
    List.count "BEGIN:VCALENDAR".data
      (splitNl (create_ics_calendar ["BEGIN:VEVENT\nEND:VEVENT".data, "X".data])) = 1 ∧
    List.count "END:VCALENDAR".data
      (splitNl (create_ics_calendar ["BEGIN:VEVENT\nEND:VEVENT".data, "X".data])) = 1 :=
  calendar_assembly_lines ["BEGIN:VEVENT\nEND:VEVENT".data, "X".data]
    (by decide) (by decide)

/-! ## Record processing (C1, C4) -/

theorem parse_time_bounds (s : List Char) (hh mm : Nat)
    (h : parse_time s = .ok (hh, mm)) : hh ≤ 23 ∧ mm ≤ 59 := by
  unfold parse_time at h
  split at h
  · split at h
    · split_ifs at h with hb
      simp only [Except.ok.injEq, Prod.mk.injEq] at h
      obtain ⟨rfl, rfl⟩ := h
      exact hb
    · simp at h
  · simp at h

theorem ltb_addMinutes90 (dt : DateTime) (h : dt.minute <= 1439) :
    DateTime.ltb dt (dt.addMinutes 90) = true := by
  simp only [DateTime.ltb, DateTime.addMinutes, Bool.or_eq_true, Bool.and_eq_true,
    decide_eq_true_eq, beq_iff_eq]
  omega

theorem build_eq_ok (s e2 : DateTime) (su lt au bu te de : List Char)
    (r : Option RepeatRule) (hlt : DateTime.ltb s e2 = true) :
    ScheduleItem.build s e2 su lt au bu te de r =
      .ok ⟨s, e2, su, lt, au, bu, te, de, r⟩ := by
  unfold ScheduleItem.build
  rw [if_pos hlt]

/-- C1: a well-formed record whose trimmed date field is a parity token
("чет" = even, "неч" = odd) yields exactly one recurring item: weekly rule
over the single target weekday, interval 2, ending by date at semester
end; its start date is the first calendar date on/after semester start
that falls on the target weekday with matching ISO-week parity, obtained
by advancing exactly one week when the first weekday occurrence's parity
mismatches; its time of day is the parsed HH:MM. -/
theorem parity_record_first_occurrence
    (data : List (List Char × List PyEvent)) (y : Nat) (hy : 1 ≤ y)
    (target : Weekday) (e : PyEvent)
    (h1 : pyStrip e.disciplName ≠ []) (h2 : pyStrip e.disciplType ≠ [])
    (h3 : pyStrip e.audNum ≠ []) (h4 : pyStrip e.buildNum ≠ [])
    (h5 : pyStrip e.prepodName ≠ []) (h6 : pyStrip e.orgUnitName ≠ [])
    (h7 : pyStrip e.dayTime ≠ [])
    (hh mm : Nat) (ht : parse_time (pyStrip e.dayTime) = .ok (hh, mm))
    (hd : pyStrip e.dayDate = "чет".data ∨ pyStrip e.dayDate = "неч".data) :
    ∃ it : ScheduleItem,
      processEvent (JSONScheduleParser.init data y) target e = .ok [it] ∧
      it.repeat_rule = some (.weekly [target] 2
        (some (.endByDate (JSONScheduleParser.init data y).semester_end))) ∧
      it.start_datetime.minute = hh * 60 + mm ∧
      it.end_datetime = it.start_datetime.addMinutes 90 ∧
      pyWeekday it.start_datetime.rd = target.toNat ∧
      is_even_week it.start_datetime.rd = (pyStrip e.dayDate == "чет".data) ∧
      rataDie y 9 1 ≤ it.start_datetime.rd ∧
      (∀ x, rataDie y 9 1 ≤ x → x < it.start_datetime.rd →
        ¬(pyWeekday x = target.toNat ∧
          is_even_week x = (pyStrip e.dayDate == "чет".data))) ∧
      it.start_datetime.rd =
        (if is_even_week (findWeekdayLoop 7 target.toNat
              (JSONScheduleParser.init data y).semester_start).rd =
            (pyStrip e.dayDate == "чет".data)
         then (findWeekdayLoop 7 target.toNat
            (JSONScheduleParser.init data y).semester_start).rd
         else (findWeekdayLoop 7 target.toNat
            (JSONScheduleParser.init data y).semester_start).rd + 7) := by
  obtain ⟨hbh, hbm⟩ := parse_time_bounds _ _ _ ht
  obtain ⟨pwd, ppar, plo, phi, pmin, pminu, psec, ptz, pmech⟩ :=
    get_first_occurrence_sept y hy target (pyStrip e.dayDate == "чет".data)
      (JSONScheduleParser.init data y).semester_start rfl
  have hstart : DateTime.ltb
      (combine (get_first_occurrence target
        (JSONScheduleParser.init data y).semester_start
        (pyStrip e.dayDate == "чет".data)) (hh, mm))
      ((combine (get_first_occurrence target
        (JSONScheduleParser.init data y).semester_start
        (pyStrip e.dayDate == "чет".data)) (hh, mm)).addMinutes 90) = true := by
    apply ltb_addMinutes90
    show hh * 60 + mm ≤ 1439
    omega
  have hpe : processEvent (JSONScheduleParser.init data y) target e =
      .ok [⟨combine (get_first_occurrence target
          (JSONScheduleParser.init data y).semester_start
          (pyStrip e.dayDate == "чет".data)) (hh, mm),
        (combine (get_first_occurrence target
          (JSONScheduleParser.init data y).semester_start
          (pyStrip e.dayDate == "чет".data)) (hh, mm)).addMinutes 90,
        pyStrip e.disciplName, pyStrip e.disciplType, pyStrip e.audNum,
        pyStrip e.buildNum, pyStrip e.prepodName, pyStrip e.orgUnitName,
        some (.weekly [target] 2
          (some (.endByDate (JSONScheduleParser.init data y).semester_end)))⟩] := by
    simp only [processEvent]
    rw [if_neg (by simp [h1, h2, h3, h4, h5, h6, h7])]
    rw [ht]
    dsimp only
    rw [if_pos hd]
    rw [build_eq_ok _ _ _ _ _ _ _ _ _ hstart]
  refine ⟨_, hpe, rfl, rfl, rfl, ?_, ?_, ?_, ?_, ?_⟩
  · exact pwd
  · exact ppar
  · exact plo
  · exact pmin
  · exact pmech

def demoEventChet : PyEvent :=
  ⟨"Math".data, "лек".data, "101".data, "2".data, "Ivanov".data, "CS".data,
    "09:00".data, "чет".data⟩

/-- Witness for C1: the spec scenario record (Monday, "чет", 09:00) against
the 2025 semester. -/
theorem parity_record_first_occurrence_witness :
    ∃ it : ScheduleItem,
      processEvent (JSONScheduleParser.init [] 2025) Weekday.monday
        demoEventChet = .ok [it] ∧
      it.repeat_rule = some (.weekly [Weekday.monday] 2
        (some (.endByDate (JSONScheduleParser.init [] 2025).semester_end))) ∧
      it.start_datetime.minute = 9 * 60 + 0 ∧
      it.end_datetime = it.start_datetime.addMinutes 90 ∧
      pyWeekday it.start_datetime.rd = Weekday.monday.toNat ∧
      is_even_week it.start_datetime.rd =
        (pyStrip demoEventChet.dayDate == "чет".data) ∧
      rataDie 2025 9 1 ≤ it.start_datetime.rd ∧
      (∀ x, rataDie 2025 9 1 ≤ x → x < it.start_datetime.rd →
        ¬(pyWeekday x = Weekday.monday.toNat ∧
          is_even_week x = (pyStrip demoEventChet.dayDate == "чет".data))) ∧
      it.start_datetime.rd =
        (if is_even_week (findWeekdayLoop 7 Weekday.monday.toNat
              (JSONScheduleParser.init [] 2025).semester_start).rd =
            (pyStrip demoEventChet.dayDate == "чет".data)
         then (findWeekdayLoop 7 Weekday.monday.toNat
            (JSONScheduleParser.init [] 2025).semester_start).rd
         else (findWeekdayLoop 7 Weekday.monday.toNat
            (JSONScheduleParser.init [] 2025).semester_start).rd + 7) :=
  parity_record_first_occurrence [] 2025 (by omega) Weekday.monday demoEventChet
    (by decide) (by decide) (by decide) (by decide) (by decide) (by decide)
    (by decide) 9 0 rfl (Or.inl (by decide))

/-- C4: a well-formed record whose trimmed date field is empty yields
exactly one recurring item: weekly rule over the single target weekday,
interval 1, ending by date at semester end; its start date is the first
calendar date on/after semester start that falls on the target weekday and
shares semester start's own ISO week parity. -/
theorem empty_date_weekly_rule
    (data : List (List Char × List PyEvent)) (y : Nat) (hy : 1 ≤ y)
    (target : Weekday) (e : PyEvent)
    (h1 : pyStrip e.disciplName ≠ []) (h2 : pyStrip e.disciplType ≠ [])
    (h3 : pyStrip e.audNum ≠ []) (h4 : pyStrip e.buildNum ≠ [])
    (h5 : pyStrip e.prepodName ≠ []) (h6 : pyStrip e.orgUnitName ≠ [])
    (h7 : pyStrip e.dayTime ≠ [])
    (hh mm : Nat) (ht : parse_time (pyStrip e.dayTime) = .ok (hh, mm))
    (hd : pyStrip e.dayDate = []) :
    ∃ it : ScheduleItem,
      processEvent (JSONScheduleParser.init data y) target e = .ok [it] ∧
      it.repeat_rule = some (.weekly [target] 1
        (some (.endByDate (JSONScheduleParser.init data y).semester_end))) ∧
      it.start_datetime.minute = hh * 60 + mm ∧
      it.end_datetime = it.start_datetime.addMinutes 90 ∧
      pyWeekday it.start_datetime.rd = target.toNat ∧
      is_even_week it.start_datetime.rd =
        is_even_week (JSONScheduleParser.init data y).semester_start.rd ∧
      rataDie y 9 1 ≤ it.start_datetime.rd ∧
      (∀ x, rataDie y 9 1 ≤ x → x < it.start_datetime.rd →
        ¬(pyWeekday x = target.toNat ∧ is_even_week x =
          is_even_week (JSONScheduleParser.init data y).semester_start.rd)) := by
  obtain ⟨hbh, hbm⟩ := parse_time_bounds _ _ _ ht
  obtain ⟨pwd, ppar, plo, phi, pmin, pminu, psec, ptz, pmech⟩ :=
    get_first_occurrence_sept y hy target
      (is_even_week (JSONScheduleParser.init data y).semester_start.rd)
      (JSONScheduleParser.init data y).semester_start rfl
  have hstart : DateTime.ltb
      (combine (get_first_occurrence target
        (JSONScheduleParser.init data y).semester_start
        (is_even_week (JSONScheduleParser.init data y).semester_start.rd)) (hh, mm))
      ((combine (get_first_occurrence target
        (JSONScheduleParser.init data y).semester_start
        (is_even_week (JSONScheduleParser.init data y).semester_start.rd))
          (hh, mm)).addMinutes 90) = true := by
    apply ltb_addMinutes90
    show hh * 60 + mm ≤ 1439
    omega
  have hpe : processEvent (JSONScheduleParser.init data y) target e =
      .ok [⟨combine (get_first_occurrence target
          (JSONScheduleParser.init data y).semester_start
          (is_even_week (JSONScheduleParser.init data y).semester_start.rd))
          (hh, mm),
        (combine (get_first_occurrence target
          (JSONScheduleParser.init data y).semester_start
          (is_even_week (JSONScheduleParser.init data y).semester_start.rd))
          (hh, mm)).addMinutes 90,
        pyStrip e.disciplName, pyStrip e.disciplType, pyStrip e.audNum,
        pyStrip e.buildNum, pyStrip e.prepodName, pyStrip e.orgUnitName,
        some (.weekly [target] 1
          (some (.endByDate (JSONScheduleParser.init data y).semester_end)))⟩] := by
    simp only [processEvent]
    rw [if_neg (by simp [h1, h2, h3, h4, h5, h6, h7])]
    rw [ht]
    dsimp only
    rw [if_neg (show ¬(pyStrip e.dayDate = "чет".data ∨
        pyStrip e.dayDate = "неч".data) by simp [hd])]
    rw [if_neg (show ¬pyStrip e.dayDate ≠ [] by simp [hd])]
    rw [build_eq_ok _ _ _ _ _ _ _ _ _ hstart]
  exact ⟨_, hpe, rfl, rfl, rfl, pwd, ppar, plo, pmin⟩

def demoEventEmpty : PyEvent :=
  ⟨"Math".data, "лек".data, "101".data, "2".data, "Ivanov".data, "CS".data,
    "09:00".data, "".data⟩

/-- Witness for C4: the same record with an empty date field. -/
theorem empty_date_weekly_rule_witness :
    ∃ it : ScheduleItem,
      processEvent (JSONScheduleParser.init [] 2025) Weekday.tuesday
        demoEventEmpty = .ok [it] ∧
      it.repeat_rule = some (.weekly [Weekday.tuesday] 1
        (some (.endByDate (JSONScheduleParser.init [] 2025).semester_end))) ∧
      it.start_datetime.minute = 9 * 60 + 0 ∧
      it.end_datetime = it.start_datetime.addMinutes 90 ∧
      pyWeekday it.start_datetime.rd = Weekday.tuesday.toNat ∧
      is_even_week it.start_datetime.rd =
        is_even_week (JSONScheduleParser.init [] 2025).semester_start.rd ∧
      rataDie 2025 9 1 ≤ it.start_datetime.rd ∧
      (∀ x, rataDie 2025 9 1 ≤ x → x < it.start_datetime.rd →
        ¬(pyWeekday x = Weekday.tuesday.toNat ∧ is_even_week x =
          is_even_week (JSONScheduleParser.init [] 2025).semester_start.rd)) :=
  empty_date_weekly_rule [] 2025 (by omega) Weekday.tuesday demoEventEmpty
    (by decide) (by decide) (by decide) (by decide) (by decide) (by decide)
    (by decide) 9 0 rfl (by decide)

/-! ## Date-list records (C5) -/

theorem dropWhile_head_false (p : Char → Bool) :
    ∀ (l : List Char) (a : Char) (t : List Char),
      List.dropWhile p l = a :: t → p a = false := by
  intro l
  induction l with
  | nil =>
    intro a t h
    simp [List.dropWhile] at h
  | cons b l ih =>
    intro a t h
    rw [List.dropWhile_cons] at h
    split_ifs at h with hb
    · exact ih a t h
    · cases h
      exact Bool.eq_false_iff.mpr hb

theorem dropWhile_eq_self_of (p : Char → Bool) (l : List Char)
    (h : ∀ a t, l = a :: t → p a = false) : List.dropWhile p l = l := by
  cases l with
  | nil => rfl
  | cons a t =>
    rw [List.dropWhile_cons, if_neg]
    simp [h a t rfl]

theorem dropWhile_idem (p : Char → Bool) (l : List Char) :
    List.dropWhile p (List.dropWhile p l) = List.dropWhile p l := by
  apply dropWhile_eq_self_of
  intro a t h
  exact dropWhile_head_false p l a t h

theorem getLast?_dropWhile (p : Char → Bool) :
    ∀ l : List Char, List.dropWhile p l = [] ∨
      (List.dropWhile p l ≠ [] ∧ (List.dropWhile p l).getLast? = l.getLast?) := by
  intro l
  induction l with
  | nil => exact Or.inl rfl
  | cons a m ih =>
    rw [List.dropWhile_cons]
    split_ifs with ha
    · rcases ih with h | ⟨hne, h⟩
      · exact Or.inl h
      · refine Or.inr ⟨hne, ?_⟩
        rw [h]
        have hm : m ≠ [] := by
          intro hm
          rw [hm] at hne
          exact hne rfl
        cases m with
        | nil => exact absurd rfl hm
        | cons b mb => rw [List.getLast?_cons_cons]
    · exact Or.inr ⟨by simp, rfl⟩

theorem pyStrip_idem (l : List Char) : pyStrip (pyStrip l) = pyStrip l := by
  have step1 : List.dropWhile Char.isWhitespace (pyStrip l) = pyStrip l := by
    apply dropWhile_eq_self_of
    intro a t h
    have hBne : (l.dropWhile Char.isWhitespace).reverse.dropWhile
        Char.isWhitespace ≠ [] := by
      intro hB
      unfold pyStrip at h
      rw [hB] at h
      simp at h
    have h1 : (pyStrip l).head? = some a := by rw [h]; rfl
    unfold pyStrip at h1
    rw [List.head?_reverse] at h1
    rcases getLast?_dropWhile Char.isWhitespace
        ((l.dropWhile Char.isWhitespace).reverse) with hB | ⟨_, hBlast⟩
    · exact absurd hB hBne
    rw [hBlast, List.getLast?_reverse] at h1
    cases hD : l.dropWhile Char.isWhitespace with
    | nil =>
      rw [hD] at h1
      simp at h1
    | cons x xs =>
      rw [hD] at h1
      simp only [List.head?_cons, Option.some.injEq] at h1
      subst h1
      exact dropWhile_head_false Char.isWhitespace l _ _ hD
  show ((List.dropWhile Char.isWhitespace (pyStrip l)).reverse.dropWhile
      Char.isWhitespace).reverse = pyStrip l
  rw [step1]
  have h2 : (pyStrip l).reverse =
      (l.dropWhile Char.isWhitespace).reverse.dropWhile Char.isWhitespace := by
    unfold pyStrip
    rw [List.reverse_reverse]
  rw [h2, dropWhile_idem]
  rfl

theorem splitWsAux_token :
    ∀ (cs acc : List Char), (∀ c ∈ acc, c.isWhitespace = false) →
      ∀ f ∈ splitWsAux cs acc, f ≠ [] ∧ ∀ c ∈ f, c.isWhitespace = false := by
  intro cs
  induction cs with
  | nil =>
    intro acc hacc f hf
    simp only [splitWsAux] at hf
    split_ifs at hf with h
    · simp at hf
    · simp only [List.mem_singleton] at hf
      subst hf
      refine ⟨by simpa using h, ?_⟩
      intro c hc
      rw [List.mem_reverse] at hc
      exact hacc c hc
  | cons c0 cs ih =>
    intro acc hacc f hf
    simp only [splitWsAux] at hf
    split_ifs at hf with h1 h2
    · exact ih [] (by simp) f hf
    · rcases List.mem_cons.mp hf with rfl | hf2
      · refine ⟨by simpa using h2, ?_⟩
        intro c hc
        rw [List.mem_reverse] at hc
        exact hacc c hc
      · exact ih [] (by simp) f hf2
    · refine ih (c0 :: acc) ?_ f hf
      intro c hc
      rcases List.mem_cons.mp hc with rfl | hc2
      · exact Bool.eq_false_iff.mpr h1
      · exact hacc c hc2

theorem splitWs_token (s : List Char) :
    ∀ f ∈ splitWs s, f ≠ [] ∧ ∀ c ∈ f, c.isWhitespace = false :=
  splitWsAux_token s [] (by simp)

theorem pyStrip_of_no_ws (f : List Char)
    (hf : ∀ c ∈ f, c.isWhitespace = false) : pyStrip f = f := by
  unfold pyStrip
  rw [dropWhile_eq_self_of Char.isWhitespace f (by
    intro a t h
    exact hf a (by rw [h]; exact List.mem_cons_self a t))]
  rw [dropWhile_eq_self_of Char.isWhitespace f.reverse (by
    intro a t h
    refine hf a (List.mem_reverse.mp ?_)
    rw [h]
    exact List.mem_cons_self a t)]
  exact List.reverse_reverse f

theorem parse_date_list_all_ok (y : Nat) :
    ∀ fs : List (List Char),
      (∀ f ∈ fs, f ≠ [] ∧ ∀ c ∈ f, c.isWhitespace = false) →
      (∀ f ∈ fs, ∃ d, parse_date_fragment y f = .ok d) →
      ∃ ds, parse_date_list y fs = .ok ds ∧ ds.length = fs.length := by
  intro fs
  induction fs with
  | nil =>
    intro _ _
    exact ⟨[], rfl, rfl⟩
  | cons f fs ih =>
    intro htok hok
    obtain ⟨hne, hws⟩ := htok f (List.mem_cons_self f fs)
    obtain ⟨d, hd⟩ := hok f (List.mem_cons_self f fs)
    obtain ⟨ds, hds, hlen⟩ := ih (fun g hg => htok g (List.mem_cons_of_mem f hg))
      (fun g hg => hok g (List.mem_cons_of_mem f hg))
    refine ⟨d :: ds, ?_, by simp [hlen]⟩
    simp only [parse_date_list]
    rw [pyStrip_of_no_ws f hws]
    rw [if_neg hne, hd, hds]

theorem parse_date_list_has_err (y : Nat) :
    ∀ fs : List (List Char),
      (∀ f ∈ fs, f ≠ [] ∧ ∀ c ∈ f, c.isWhitespace = false) →
      (∃ f ∈ fs, ∀ d, parse_date_fragment y f ≠ .ok d) →
      ∃ m, parse_date_list y fs = .error m := by
  intro fs
  induction fs with
  | nil =>
    intro _ hbad
    obtain ⟨f, hf, _⟩ := hbad
    simp at hf
  | cons f fs ih =>
    intro htok hbad
    obtain ⟨hne, hws⟩ := htok f (List.mem_cons_self f fs)
    cases hpf : parse_date_fragment y f with
    | error m =>
      refine ⟨m, ?_⟩
      simp only [parse_date_list]
      rw [pyStrip_of_no_ws f hws, if_neg hne, hpf]
    | ok d =>
      obtain ⟨g, hg, hgbad⟩ := hbad
      rcases List.mem_cons.mp hg with rfl | hg2
      · exact absurd hpf (hgbad d)
      · obtain ⟨m, hm⟩ := ih (fun x hx => htok x (List.mem_cons_of_mem f hx))
          ⟨g, hg2, hgbad⟩
        refine ⟨m, ?_⟩
        simp only [parse_date_list]
        rw [pyStrip_of_no_ws f hws, if_neg hne, hpf, hm]

theorem buildSingles_ok (hh mm : Nat) (hbh : hh ≤ 23) (hbm : mm ≤ 59)
    (su lt au bu te de : List Char) :
    ∀ ds : List DateTime,
      ∃ items, processEvent.buildSingles ds (hh, mm) su lt au bu te de =
          .ok items ∧
        items.length = ds.length ∧
        (∀ it ∈ items, it.repeat_rule = none) ∧
        items.map ScheduleItem.start_datetime =
          ds.map (fun d => combine d (hh, mm)) := by
  intro ds
  induction ds with
  | nil => exact ⟨[], rfl, rfl, by simp, rfl⟩
  | cons d ds ih =>
    obtain ⟨items, hits, hlen, hrule, hmap⟩ := ih
    have hlt : DateTime.ltb (combine d (hh, mm))
        ((combine d (hh, mm)).addMinutes 90) = true := by
      apply ltb_addMinutes90
      show hh * 60 + mm ≤ 1439
      omega
    refine ⟨⟨combine d (hh, mm), (combine d (hh, mm)).addMinutes 90,
        su, lt, au, bu, te, de, none⟩ :: items, ?_, by simp [hlen], ?_, ?_⟩
    · simp only [processEvent.buildSingles]
      rw [build_eq_ok _ _ _ _ _ _ _ _ _ hlt, hits]
    · intro it hit
      rcases List.mem_cons.mp hit with rfl | hit2
      · rfl
      · exact hrule it hit2
    · simp [hmap]

/-- C5: a well-formed record whose trimmed date field is non-empty and not
a parity token is split on whitespace into DD.MM fragments resolved with
the configured start year; when every fragment parses, the parser produces
exactly one single-occurrence item (no repeat rule) per fragment — the
entry count equals the fragment count and the item dates are the resolved
dates; when some fragment does not parse, the record fails with an
error. -/
theorem date_list_entry_count
    (data : List (List Char × List PyEvent)) (y : Nat)
    (target : Weekday) (e : PyEvent)
    (h1 : pyStrip e.disciplName ≠ []) (h2 : pyStrip e.disciplType ≠ [])
    (h3 : pyStrip e.audNum ≠ []) (h4 : pyStrip e.buildNum ≠ [])
    (h5 : pyStrip e.prepodName ≠ []) (h6 : pyStrip e.orgUnitName ≠ [])
    (h7 : pyStrip e.dayTime ≠ [])
    (hh mm : Nat) (ht : parse_time (pyStrip e.dayTime) = .ok (hh, mm))
    (hne : pyStrip e.dayDate ≠ [])
    (hnp : ¬(pyStrip e.dayDate = "чет".data ∨ pyStrip e.dayDate = "неч".data)) :
    ((∀ f ∈ splitWs (pyStrip e.dayDate), ∃ d, parse_date_fragment y f = .ok d) →
      ∃ items ds,
        processEvent (JSONScheduleParser.init data y) target e = .ok items ∧
        parse_date_list y (splitWs (pyStrip e.dayDate)) = .ok ds ∧
        items.length = (splitWs (pyStrip e.dayDate)).length ∧
        (∀ it ∈ items, it.repeat_rule = none) ∧
        items.map ScheduleItem.start_datetime =
          ds.map (fun d => combine d (hh, mm))) ∧
    ((∃ f ∈ splitWs (pyStrip e.dayDate), ∀ d, parse_date_fragment y f ≠ .ok d) →
      ∃ msg, processEvent (JSONScheduleParser.init data y) target e =
        .error msg) := by
  obtain ⟨hbh, hbm⟩ := parse_time_bounds _ _ _ ht
  have hred2 : parse_dates y (pyStrip e.dayDate) =
      parse_date_list y (splitWs (pyStrip e.dayDate)) := by
    simp only [parse_dates]
    rw [pyStrip_idem, if_neg hne]
  constructor
  · intro hok
    obtain ⟨ds, hds, hdslen⟩ := parse_date_list_all_ok y
      (splitWs (pyStrip e.dayDate)) (splitWs_token (pyStrip e.dayDate)) hok
    obtain ⟨items, hits, hilen, hirule, himap⟩ := buildSingles_ok hh mm hbh hbm
      (pyStrip e.disciplName) (pyStrip e.disciplType) (pyStrip e.audNum)
      (pyStrip e.buildNum) (pyStrip e.prepodName) (pyStrip e.orgUnitName) ds
    refine ⟨items, ds, ?_, hds, by rw [hilen, hdslen], hirule, himap⟩
    simp only [processEvent, JSONScheduleParser.init]
    rw [if_neg (by simp [h1, h2, h3, h4, h5, h6, h7])]
    rw [ht]
    dsimp only
    rw [if_neg hnp, if_pos hne]
    rw [hred2, hds]
    exact hits
  · intro hbad
    obtain ⟨m, hm⟩ := parse_date_list_has_err y (splitWs (pyStrip e.dayDate))
      (splitWs_token (pyStrip e.dayDate)) hbad
    refine ⟨m, ?_⟩
    simp only [processEvent, JSONScheduleParser.init]
    rw [if_neg (by simp [h1, h2, h3, h4, h5, h6, h7])]
    rw [ht]
    dsimp only
    rw [if_neg hnp, if_pos hne]
    rw [hred2, hm]

def demoEventDates : PyEvent :=
  ⟨"Math".data, "лек".data, "101".data, "2".data, "Ivanov".data, "CS".data,
    "09:00".data, "05.09 12.09".data⟩

/-- Witness for C5: the spec scenario date list "05.09 12.09" against start
year 2025 produces two single-occurrence items. -/
theorem date_list_entry_count_witness :
    ∃ items ds,
      processEvent (JSONScheduleParser.init [] 2025) Weekday.friday
        demoEventDates = .ok items ∧
      parse_date_list 2025 (splitWs (pyStrip demoEventDates.dayDate)) = .ok ds ∧
      items.length = (splitWs (pyStrip demoEventDates.dayDate)).length ∧
      (∀ it ∈ items, it.repeat_rule = none) ∧
      items.map ScheduleItem.start_datetime =
        ds.map (fun d => combine d (9, 0)) :=
  (date_list_entry_count [] 2025 Weekday.friday demoEventDates
    (by decide) (by decide) (by decide) (by decide) (by decide) (by decide)
    (by decide) 9 0 rfl (by decide) (by decide)).1 (by
      intro f hf
      have hsp : splitWs (pyStrip demoEventDates.dayDate) =
          ["05.09".data, "12.09".data] := by decide
      rw [hsp] at hf
      rcases List.mem_cons.mp hf with rfl | hf2
      · exact ⟨_, rfl⟩
      · rcases List.mem_cons.mp hf2 with rfl | hf3
        · exact ⟨_, rfl⟩
        · simp at hf3)

/-! ## Error policy (C6) -/

theorem processEvent_skip (p : JSONScheduleParser) (target : Weekday)
    (e : PyEvent)
    (h : pyStrip e.disciplName = [] ∨ pyStrip e.disciplType = [] ∨
      pyStrip e.audNum = [] ∨ pyStrip e.buildNum = [] ∨
      pyStrip e.prepodName = [] ∨ pyStrip e.orgUnitName = [] ∨
      pyStrip e.dayTime = []) :
    processEvent p target e = .ok [] := by
  simp only [processEvent]
  rw [if_pos h]

theorem processEvent_time_err (p : JSONScheduleParser) (target : Weekday)
    (e : PyEvent) (msg : List Char)
    (h1 : pyStrip e.disciplName ≠ []) (h2 : pyStrip e.disciplType ≠ [])
    (h3 : pyStrip e.audNum ≠ []) (h4 : pyStrip e.buildNum ≠ [])
    (h5 : pyStrip e.prepodName ≠ []) (h6 : pyStrip e.orgUnitName ≠ [])
    (h7 : pyStrip e.dayTime ≠ [])
    (ht : parse_time (pyStrip e.dayTime) = .error msg) :
    processEvent p target e = .error msg := by
  simp only [processEvent]
  rw [if_neg (by simp [h1, h2, h3, h4, h5, h6, h7])]
  rw [ht]

theorem processEvents_skip (p : JSONScheduleParser) (t : Weekday)
    (evs1 evs2 : List PyEvent) (bad : PyEvent)
    (hbad : processEvent p t bad = .ok []) :
    processEvents p t (evs1 ++ bad :: evs2) = processEvents p t (evs1 ++ evs2) := by
  induction evs1 with
  | nil =>
    simp only [List.nil_append, processEvents]
    rw [hbad]
    cases h : processEvents p t evs2 with
    | error m => rfl
    | ok ys => simp
  | cons a l ih =>
    simp only [List.cons_append, processEvents, List.append_eq]
    rw [ih]

theorem processEvents_err (p : JSONScheduleParser) (t : Weekday) :
    ∀ (evs : List PyEvent) (e : PyEvent) (m : List Char), e ∈ evs →
      processEvent p t e = .error m → ∃ m2, processEvents p t evs = .error m2 := by
  intro evs
  induction evs with
  | nil =>
    intro e m h
    simp at h
  | cons a l ih =>
    intro e m he herr
    rcases List.mem_cons.mp he with rfl | he2
    · refine ⟨m, ?_⟩
      simp only [processEvents]
      rw [herr]
    · cases ha : processEvent p t a with
      | error m0 =>
        refine ⟨m0, ?_⟩
        simp only [processEvents]
        rw [ha]
      | ok xs =>
        obtain ⟨m2, hm2⟩ := ih e m he2 herr
        refine ⟨m2, ?_⟩
        simp only [processEvents]
        rw [ha]
        dsimp only
        rw [hm2]

theorem processEvent_fields (p q : JSONScheduleParser)
    (hy : p.start_year = q.start_year)
    (hss : p.semester_start = q.semester_start)
    (hse : p.semester_end = q.semester_end) (t : Weekday) (e : PyEvent) :
    processEvent p t e = processEvent q t e := by
  simp only [processEvent, hy, hss, hse]

theorem processEvents_fields (p q : JSONScheduleParser)
    (hy : p.start_year = q.start_year)
    (hss : p.semester_start = q.semester_start)
    (hse : p.semester_end = q.semester_end) (t : Weekday) :
    ∀ evs, processEvents p t evs = processEvents q t evs := by
  intro evs
  induction evs with
  | nil => rfl
  | cons a l ih =>
    simp only [processEvents]
    rw [processEvent_fields p q hy hss hse t a, ih]

theorem parseDays_fields (p q : JSONScheduleParser)
    (hy : p.start_year = q.start_year)
    (hss : p.semester_start = q.semester_start)
    (hse : p.semester_end = q.semester_end) :
    ∀ ds, parseDays p ds = parseDays q ds := by
  intro ds
  induction ds with
  | nil => rfl
  | cons x l ih =>
    obtain ⟨kx, evx⟩ := x
    simp only [parseDays]
    cases hk : weekday_map kx with
    | none => exact ih
    | some w =>
      dsimp only
      rw [processEvents_fields p q hy hss hse w evx, ih]

theorem parseDays_skip_key (p : JSONScheduleParser)
    (k : List Char) (evs : List PyEvent) (hk : weekday_map k = none) :
    ∀ d1 d2, parseDays p (d1 ++ (k, evs) :: d2) = parseDays p (d1 ++ d2) := by
  intro d1
  induction d1 with
  | nil =>
    intro d2
    simp only [List.nil_append, parseDays]
    rw [hk]
  | cons x l ih =>
    intro d2
    obtain ⟨kx, evx⟩ := x
    simp only [List.cons_append, parseDays, List.append_eq]
    rw [ih]

theorem parseDays_skip_record (p : JSONScheduleParser)
    (k : List Char) (evs1 evs2 : List PyEvent) (bad : PyEvent)
    (hbad : ∀ w, processEvent p w bad = .ok []) :
    ∀ d1 d2, parseDays p (d1 ++ (k, evs1 ++ bad :: evs2) :: d2) =
      parseDays p (d1 ++ (k, evs1 ++ evs2) :: d2) := by
  intro d1
  induction d1 with
  | nil =>
    intro d2
    simp only [List.nil_append, parseDays]
    cases hk : weekday_map k with
    | none => rfl
    | some w =>
      dsimp only
      rw [processEvents_skip p w evs1 evs2 bad (hbad w)]
  | cons x l ih =>
    intro d2
    obtain ⟨kx, evx⟩ := x
    simp only [List.cons_append, parseDays, List.append_eq]
    rw [ih]

theorem parseDays_err (p : JSONScheduleParser) :
    ∀ (ds : List (List Char × List PyEvent)) (k : List Char)
      (evs : List PyEvent) (w : Weekday) (e : PyEvent) (m : List Char),
      (k, evs) ∈ ds → weekday_map k = some w → e ∈ evs →
      processEvent p w e = .error m → ∃ m2, parseDays p ds = .error m2 := by
  intro ds
  induction ds with
  | nil =>
    intro k evs w e m h
    simp at h
  | cons x l ih =>
    intro k evs w e m hmem hw he herr
    obtain ⟨kx, evx⟩ := x
    rcases List.mem_cons.mp hmem with heq | hmem2
    · cases heq
      obtain ⟨m2, hm2⟩ := processEvents_err p w evs e m he herr
      refine ⟨m2, ?_⟩
      simp only [parseDays]
      rw [hw]
      dsimp only
      rw [hm2]
    · cases hkx : weekday_map kx with
      | none =>
        obtain ⟨m2, hm2⟩ := ih k evs w e m hmem2 hw he herr
        refine ⟨m2, ?_⟩
        simp only [parseDays]
        rw [hkx]
        exact hm2
      | some wx =>
        cases hpe : processEvents p wx evx with
        | error m0 =>
          refine ⟨m0, ?_⟩
          simp only [parseDays]
          rw [hkx]
          dsimp only
          rw [hpe]
        | ok xs =>
          obtain ⟨m2, hm2⟩ := ih k evs w e m hmem2 hw he herr
          refine ⟨m2, ?_⟩
          simp only [parseDays]
          rw [hkx]
          dsimp only
          rw [hpe]
          dsimp only
          rw [hm2]

/-- C6: a record with any required field empty after trimming is skipped
without raising — it contributes nothing and the whole parse of the
remaining records is unchanged — whereas a record whose non-empty time
string does not parse raises an error that aborts the whole parse; an
unrecognized weekday key is likewise skipped without raising. -/
theorem record_error_policy :
    (∀ (p : JSONScheduleParser) (target : Weekday) (e : PyEvent),
      (pyStrip e.disciplName = [] ∨ pyStrip e.disciplType = [] ∨
        pyStrip e.audNum = [] ∨ pyStrip e.buildNum = [] ∨
        pyStrip e.prepodName = [] ∨ pyStrip e.orgUnitName = [] ∨
        pyStrip e.dayTime = []) →
      processEvent p target e = .ok []) ∧
    (∀ (p : JSONScheduleParser) (target : Weekday) (e : PyEvent)
        (msg : List Char),
      pyStrip e.disciplName ≠ [] → pyStrip e.disciplType ≠ [] →
      pyStrip e.audNum ≠ [] → pyStrip e.buildNum ≠ [] →
      pyStrip e.prepodName ≠ [] → pyStrip e.orgUnitName ≠ [] →
      pyStrip e.dayTime ≠ [] →
      parse_time (pyStrip e.dayTime) = .error msg →
      processEvent p target e = .error msg) ∧
    (∀ (dataA dataB : List (List Char × List PyEvent)) (k : List Char)
        (evs1 evs2 : List PyEvent) (bad : PyEvent) (y : Nat)
        (ss se : DateTime),
      (pyStrip bad.disciplName = [] ∨ pyStrip bad.disciplType = [] ∨
        pyStrip bad.audNum = [] ∨ pyStrip bad.buildNum = [] ∨
        pyStrip bad.prepodName = [] ∨ pyStrip bad.orgUnitName = [] ∨
        pyStrip bad.dayTime = []) →
      JSONScheduleParser.parse
          ⟨dataA ++ (k, evs1 ++ bad :: evs2) :: dataB, y, ss, se⟩ =
        JSONScheduleParser.parse ⟨dataA ++ (k, evs1 ++ evs2) :: dataB, y, ss, se⟩) ∧
    (∀ (dataA dataB : List (List Char × List PyEvent)) (k : List Char)
        (evs1 evs2 : List PyEvent) (e : PyEvent) (y : Nat) (ss se : DateTime)
        (w : Weekday) (msg : List Char),
      weekday_map k = some w →
      pyStrip e.disciplName ≠ [] → pyStrip e.disciplType ≠ [] →
      pyStrip e.audNum ≠ [] → pyStrip e.buildNum ≠ [] →
      pyStrip e.prepodName ≠ [] → pyStrip e.orgUnitName ≠ [] →
      pyStrip e.dayTime ≠ [] →
      parse_time (pyStrip e.dayTime) = .error msg →
      ∃ m2, JSONScheduleParser.parse
        ⟨dataA ++ (k, evs1 ++ e :: evs2) :: dataB, y, ss, se⟩ = .error m2) ∧
    (∀ (dataA dataB : List (List Char × List PyEvent)) (k : List Char)
        (evs : List PyEvent) (y : Nat) (ss se : DateTime),
      weekday_map k = none →
      JSONScheduleParser.parse ⟨dataA ++ (k, evs) :: dataB, y, ss, se⟩ =
        JSONScheduleParser.parse ⟨dataA ++ dataB, y, ss, se⟩) := by
  refine ⟨processEvent_skip, processEvent_time_err, ?_, ?_, ?_⟩
  · intro dataA dataB k evs1 evs2 bad y ss se hbad
    show parseDays _ (dataA ++ (k, evs1 ++ bad :: evs2) :: dataB) =
      parseDays _ (dataA ++ (k, evs1 ++ evs2) :: dataB)
    rw [parseDays_skip_record ⟨dataA ++ (k, evs1 ++ bad :: evs2) :: dataB, y, ss, se⟩
      k evs1 evs2 bad (fun w => processEvent_skip _ w bad hbad) dataA dataB]
    exact parseDays_fields
      ⟨dataA ++ (k, evs1 ++ bad :: evs2) :: dataB, y, ss, se⟩
      ⟨dataA ++ (k, evs1 ++ evs2) :: dataB, y, ss, se⟩ rfl rfl rfl _
  · intro dataA dataB k evs1 evs2 e y ss se w msg hw h1 h2 h3 h4 h5 h6 h7 ht
    exact parseDays_err _ _ k (evs1 ++ e :: evs2) w e msg
      (by simp) hw (by simp)
      (processEvent_time_err _ w e msg h1 h2 h3 h4 h5 h6 h7 ht)
  · intro dataA dataB k evs y ss se hk
    show parseDays _ (dataA ++ (k, evs) :: dataB) = parseDays _ (dataA ++ dataB)
    rw [parseDays_skip_key ⟨dataA ++ (k, evs) :: dataB, y, ss, se⟩ k evs hk dataA dataB]
    exact parseDays_fields ⟨dataA ++ (k, evs) :: dataB, y, ss, se⟩
      ⟨dataA ++ dataB, y, ss, se⟩ rfl rfl rfl _

def demoEventNoTeacher : PyEvent :=
  ⟨"Math".data, "лек".data, "101".data, "2".data, "".data, "CS".data,
    "09:00".data, "".data⟩

def demoEventBadTime : PyEvent :=
  ⟨"Math".data, "лек".data, "101".data, "2".data, "Ivanov".data, "CS".data,
    "9h00".data, "".data⟩

/-- Witness for C6: a record missing the teacher is skipped; a record with
time "9h00" fails the record and the whole parse; weekday key "9" is
skipped. -/
theorem record_error_policy_witness :
    processEvent (JSONScheduleParser.init [] 2025) Weekday.monday
      demoEventNoTeacher = .ok [] ∧
    processEvent (JSONScheduleParser.init [] 2025) Weekday.monday
      demoEventBadTime = .error timeErrMsg ∧
    JSONScheduleParser.parse
        ⟨[("1".data, [demoEventNoTeacher])], 2025, ⟨0, 0, 0, []⟩, ⟨0, 0, 0, []⟩⟩ =
      JSONScheduleParser.parse
        ⟨[("1".data, ([] : List PyEvent))], 2025, ⟨0, 0, 0, []⟩, ⟨0, 0, 0, []⟩⟩ ∧
    (∃ m2, JSONScheduleParser.parse
        ⟨[("1".data, [demoEventBadTime])], 2025, ⟨0, 0, 0, []⟩, ⟨0, 0, 0, []⟩⟩ =
      .error m2) ∧
    JSONScheduleParser.parse
        ⟨[("9".data, [demoEventBadTime])], 2025, ⟨0, 0, 0, []⟩, ⟨0, 0, 0, []⟩⟩ =
      JSONScheduleParser.parse ⟨[], 2025, ⟨0, 0, 0, []⟩, ⟨0, 0, 0, []⟩⟩ :=
  ⟨record_error_policy.1 (JSONScheduleParser.init [] 2025) Weekday.monday
      demoEventNoTeacher (by decide),
   record_error_policy.2.1 (JSONScheduleParser.init [] 2025) Weekday.monday
      demoEventBadTime timeErrMsg (by decide) (by decide) (by decide) (by decide)
      (by decide) (by decide) (by decide) rfl,
   record_error_policy.2.2.1 [] [] "1".data [] [] demoEventNoTeacher 2025
      ⟨0, 0, 0, []⟩ ⟨0, 0, 0, []⟩ (by decide),
   record_error_policy.2.2.2.1 [] [] "1".data [] [] demoEventBadTime 2025
      ⟨0, 0, 0, []⟩ ⟨0, 0, 0, []⟩ Weekday.monday timeErrMsg rfl (by decide)
      (by decide) (by decide) (by decide) (by decide) (by decide) (by decide) rfl,
   record_error_policy.2.2.2.2 [] [] "9".data [demoEventBadTime] 2025
      ⟨0, 0, 0, []⟩ ⟨0, 0, 0, []⟩ rfl⟩
